import Mathlib

/-!
Shallow embedding of the Gamma-Camera-Uniformity repository
(`dicom_functions.py`, `uniformity_functions.py`).

Bytes are modelled as `Nat` (always `< 256` where produced by the code),
byte strings as `List Nat`, Python `str` as Lean `String`, numpy/Python
floats as `ℚ` (exact rational arithmetic stands in for IEEE-754 where no
claim depends on rounding), and fallible Python code (exceptions) as
`Option`.  A function that can recurse without progress in Python is
given a fuel parameter that provably dominates the recursion depth, with
`none` denoting the non-terminating case.
-/

/-- Lowercase hexadecimal digit character for a value below 16
(mirrors Python's `bytes.hex` digit alphabet). -/
def hexDigitChar (n : Nat) : Char :=
  "0123456789abcdef".toList.getD n 'x'

/-- Two lowercase hex digits of one byte, as in Python `bytes.hex()`. -/
def byteHex (b : Nat) : List Char :=
  [hexDigitChar (b / 16 % 16), hexDigitChar (b % 16)]

/-- Python `bytes.hex()`: lowercase hex string of a byte string. -/
def bytesHex (l : List Nat) : String :=
  ⟨l.foldr (fun b acc => byteHex b ++ acc) []⟩

/-- Python `bytes.decode("ascii")`: succeeds iff every byte is below 128,
otherwise raises `UnicodeDecodeError` (modelled as `none`). -/
def asciiDecode (l : List Nat) : Option String :=
  if l.all (fun b => b < 128) then some ⟨l.map Char.ofNat⟩ else none

/-- `leadsWith n h` is true iff the list `n` is an initial segment of `h`. -/
def leadsWith : List Char → List Char → Bool
  | [], _ => true
  | _ :: _, [] => false
  | a :: as, b :: bs => a == b && leadsWith as bs

/-- `strHas hay needle`: the list `needle` occurs contiguously inside `hay`. -/
def strHas : List Char → List Char → Bool
  | hay, needle =>
    leadsWith needle hay ||
      match hay with
      | [] => false
      | _ :: t => strHas t needle

/-- Python's `needle in haystack` on `str`: substring containment
(the empty string is contained in everything). -/
def pyInStr (needle haystack : String) : Bool :=
  strHas haystack.toList needle.toList

/-- Python `int.from_bytes(l, byteorder="little")`: little-endian unsigned
integer; the empty byte string gives 0. -/
def leBytes (l : List Nat) : Nat :=
  l.foldr (fun b acc => b + 256 * acc) 0

/-- Big-endian unsigned integer of a byte string. -/
def beBytes (l : List Nat) : Nat :=
  l.foldl (fun acc b => acc * 256 + b) 0

/-- Big-endian two's-complement signed integer of a byte string, as
`struct.unpack` with `>i`, `>h`, `>q` reads it (the length check is done
by the caller). -/
def sbeBytes (l : List Nat) : Int :=
  let n := beBytes l
  if n < 2 ^ (8 * l.length - 1) then (n : Int) else (n : Int) - 2 ^ (8 * l.length)

/-- ASCII decimal digit test used by Python `int(str)`. -/
def isPyDigit (c : Char) : Bool :=
  '0' ≤ c && c ≤ '9'

/-- ASCII whitespace stripped by Python `int(str)` around the literal. -/
def isPySpace (c : Char) : Bool :=
  c = ' ' || c = '\t' || c = '\n' || c = '\r' || c = '\x0b' || c = '\x0c'

/-- Numeric value of a decimal digit character. -/
def digitVal (c : Char) : Nat :=
  c.toNat - '0'.toNat

/-- Tail of a Python integer literal after its first digit: digits with
single underscores allowed only between digits; returns the digits. -/
def digitsTail : List Char → Option (List Char)
  | [] => some []
  | '_' :: c :: rest =>
    if isPyDigit c then (digitsTail rest).map (fun ds => c :: ds) else none
  | c :: rest =>
    if isPyDigit c then (digitsTail rest).map (fun ds => c :: ds) else none

/-- Python `int(s)` on an ASCII string: strip whitespace, optional sign,
then a nonempty digit sequence (underscores between digits allowed);
`none` models the `ValueError` raised on anything else. -/
def pyParseInt (s : String) : Option Int :=
  let l := ((s.toList.dropWhile isPySpace).reverse.dropWhile isPySpace).reverse
  let signAndRest : Int × List Char :=
    match l with
    | '+' :: r => (1, r)
    | '-' :: r => (-1, r)
    | _ => (1, l)
  match signAndRest.2 with
  | [] => none
  | c :: rest =>
    if isPyDigit c then
      match digitsTail rest with
      | some ds =>
        some (signAndRest.1 *
          ((((c :: ds).foldl (fun a d => a * 10 + digitVal d) 0 : Nat)) : Int))
      | none => none
    else none

/-- Python string slice `l[a:b]` for nonnegative `a ≤ b` (clamping). -/
def pySliceCl (l : List Char) (a b : Nat) : List Char :=
  (l.take b).drop a

/-- `rearrange_tag` from dicom_functions.py:
`tag[2:4] + tag[0:2] + tag[6:] + tag[4:6]`. -/
def rearrange_tag (tag : String) : String :=
  let l := tag.toList
  ⟨pySliceCl l 2 4 ++ pySliceCl l 0 2 ++ l.drop 6 ++ pySliceCl l 4 6⟩

/-- Python `value[:-2]`: drop the last two elements (clamping). -/
def pyDropLast2 (l : List α) : List α :=
  l.take (l.length - 2)

/-- Decoded DICOM element value. Python produces `str`, `int`, `float` or
`bytes`; the IEEE-754 floats of VRs FL/FD are carried as their big-endian
bit patterns (no claim inspects float arithmetic). -/
inductive DecodedValue where
  | str (s : String)
  | int (n : Int)
  | float32 (bits : Nat)
  | float64 (bits : Nat)
  | bytes (b : List Nat)
deriving DecidableEq, Repr

/-- The string-like VR list of `decode_value`
(`vr in "AE AS CS ..."` is a Python substring test on this string). -/
def strVRs : String := "AE AS CS DA DS DT LO LT PN SH ST TM UC UI UR UT UV"

/-- One decoding attempt of `decode_value`'s `try` body: `none` is the
raised exception that triggers the trailing-byte-stripping retry. -/
def decodeOnce (vr : String) (value : List Nat) : Option DecodedValue :=
  if pyInStr vr strVRs then (asciiDecode value).map .str
  else if vr = "AT" then some (.str (bytesHex value))
  else if vr = "FL" then
    if value.length = 4 then some (.float32 (beBytes value)) else none
  else if vr = "FD" then
    if value.length = 8 then some (.float64 (beBytes value)) else none
  else if vr = "IS" then
    match asciiDecode value with
    | none => none
    | some s => (pyParseInt s).map .int
  else if vr = "SL" then
    if value.length = 4 then some (.int (sbeBytes value)) else none
  else if vr = "SS" then
    if value.length = 2 then some (.int (sbeBytes value)) else none
  else if vr = "SV" then
    if value.length = 8 then some (.int (sbeBytes value)) else none
  else if vr = "UL" then some (.int (leBytes value))
  else if vr = "US" then some (.int (leBytes value))
  else some (.bytes value)

/-- Fuelled body of `decode_value`: retry on a 2-byte-shorter input after
a failure.  In Python `b""[:-2] == b""`, so a failure on the empty input
recurses without progress (a `RecursionError` cascade, never a normal
return); that case is modelled as `none`.  Each retry shortens a nonempty
input by at least one byte, so fuel `value.length` is always enough. -/
def decodeValueAux : Nat → String → List Nat → Option DecodedValue
  | fuel, vr, value =>
    match decodeOnce vr value with
    | some v => some v
    | none =>
      match fuel, value with
      | _, [] => none
      | 0, _ => none
      | Nat.succ f, _ => decodeValueAux f vr (pyDropLast2 value)

/-- `decode_value` from dicom_functions.py. -/
def decode_value (vr : String) (value : List Nat) : Option DecodedValue :=
  decodeValueAux value.length vr value

example : decode_value "CS" [65, 66] = some (.str "AB") := by decide
example : decode_value "US" [5, 0] = some (.int 5) := by decide
example : decode_value "CS" [255] = some (.str "") := by decide
example : decode_value "FL" [1] = none := by decide
example : decode_value "IS" [32, 49, 50, 32] = some (.int 12) := by decide
example : decode_value "SS" [255, 255] = some (.int (-1)) := by decide
example : decode_value "SS" [1, 2, 9, 9] = some (.int 258) := by decide
example : decode_value "SS" [1, 2, 3] = none := by decide

/-- One data element read by `parse_binary`'s loop body: the reordered
tag, the VR, the declared length, the decoded value and the remaining
byte stream. -/
structure RawElem where
  tag : String
  vr : String
  len : Nat
  value : DecodedValue
  rest : List Nat
deriving DecidableEq, Repr

/-- The short-length-form VR list of `parse_binary`
(again a Python substring test). -/
def shortVRs : String := "AE AS AT CS DA DS DT FL FD IS LO LT PN SH SL ST SS TM UI UL US"

/-- The body of `parse_binary`'s `while` loop up to the pixel-data test:
read 4 tag bytes (reordered), a 2-byte ASCII VR, a 2- or 4-byte
little-endian length according to the VR, then `length` value bytes
decoded with `decode_value`.  `none` models the exceptions the body can
raise (non-ASCII VR bytes, or a non-terminating `decode_value`). -/
def parseElem (data : List Nat) : Option RawElem :=
  let tag := rearrange_tag (bytesHex (data.take 4))
  let d1 := data.drop 4
  match asciiDecode (d1.take 2) with
  | none => none
  | some vr =>
    let d2 := d1.drop 2
    let lenAndData : Nat × List Nat :=
      if pyInStr vr shortVRs then (leBytes (d2.take 2), d2.drop 2)
      else (leBytes ((d2.drop 2).take 4), (d2.drop 2).drop 4)
    match decode_value vr (lenAndData.2.take lenAndData.1) with
    | none => none
    | some v => some ⟨tag, vr, lenAndData.1, v, lenAndData.2.drop lenAndData.1⟩

/-- The parsed-metadata mapping: insertion-ordered association list from
tag to `(vr, length, value)`, as a Python `dict` built by item
assignment. -/
abbrev MetaDict : Type := List (String × String × Nat × DecodedValue)

/-- Python `d[k] = v` on an insertion-ordered dict: overwrite in place if
the key exists, else append. -/
def dictSet (d : MetaDict) (k : String) (v : String × Nat × DecodedValue) : MetaDict :=
  if d.any (fun p => p.1 = k) then
    d.map (fun p => if p.1 = k then (k, v) else p)
  else d ++ [(k, v)]

/-- Python `d[k]` lookup (first match; keys are unique by construction). -/
def dictGet (d : MetaDict) (k : String) : Option (String × Nat × DecodedValue) :=
  match d.find? (fun p => p.1 = k) with
  | some p => some p.2
  | none => none

/-- The `while len(data) > 0` loop of `parse_binary`.  On the pixel-data
tag `"7fe00010"` the loop stores the element's (decoded) value as the
image data and breaks; otherwise it upserts the element and continues.
The fuel only limits the number of loop iterations; every iteration
consumes at least one byte, so fuel `data.length` is always sufficient
and `none` via fuel exhaustion is unreachable from `parse_binary`. -/
def parseLoopF (fuel : Nat) (data : List Nat) (acc : MetaDict) :
    Option (MetaDict × Option DecodedValue) :=
  if data = [] then some (acc, none)
  else
    match parseElem data with
    | none => none
    | some e =>
      if e.tag = "7fe00010" then some (acc, some e.value)
      else
        match fuel with
        | 0 => none
        | Nat.succ f => parseLoopF f e.rest (dictSet acc e.tag (e.vr, e.len, e.value))

/-- A parsed element after the annotation pass: the Python 4-element list
`[vr, length, value, name]`. -/
structure NamedElem where
  vr : String
  len : Nat
  value : DecodedValue
  name : String
deriving DecidableEq, Repr

/-- The annotation loop after `parse_binary`'s `while`: append the
tag-name dictionary's entry for the tag, or the literal `"UNKOWN"`
(spelled exactly as in the code) when the tag is absent.  The external
`dicom_elements.json` collaborator is the function argument `elements`. -/
def annotate (elements : String → Option String) (d : MetaDict) :
    List (String × NamedElem) :=
  d.map (fun p => (p.1, ⟨p.2.1, p.2.2.1, p.2.2.2, (elements p.1).getD "UNKOWN"⟩))

/-- `data[128:]` then `data[4:]`: preamble and prefix removal. -/
def stripHeader (data : List Nat) : List Nat :=
  (data.drop 128).drop 4

/-- `parse_binary` from dicom_functions.py.  The second component is the
image data: `none` when the pixel-data tag was never met (Python's
initial `[]`), otherwise the value stored at the `break`. -/
def parse_binary (elements : String → Option String) (data : List Nat) :
    Option (List (String × NamedElem) × Option DecodedValue) :=
  let body := stripHeader data
  (parseLoopF body.length body []).map
    (fun r => (annotate elements r.1, r.2))

example : parseElem [] = some ⟨"", "", 0, .str "", []⟩ := by decide
example :
    parseElem [0xe0, 0x7f, 0x10, 0x00, 0x55, 0x53, 2, 0, 5, 0] =
      some ⟨"7fe00010", "US", 2, .int 5, []⟩ := by decide
example :
    parse_binary (fun _ => none)
      (List.replicate 132 0 ++ [0xe0, 0x7f, 0x10, 0x00, 0x55, 0x53, 2, 0, 5, 0]) =
      some ([], some (.int 5)) := by decide

/-- A 3D voxel volume: planes of rows of integer samples. -/
abbrev Volume : Type := List (List (List Int))

/-- The integer a Python expression must be for `//` and the array
dimensions to work; any other runtime type raises (`none`). -/
def asInt : DecodedValue → Option Int
  | .int n => some n
  | _ => none

/-- Python `range(start, stop, step)` for a positive step. -/
def pyRange (start stop step : Nat) : List Nat :=
  (List.range ((stop - start + step - 1) / step)).map (fun k => start + k * step)

/-- The list comprehension of `decode_image_data`:
`[int.from_bytes(image_data[i:i+ba], "little") for i in range(0, len, ba)]`
for a positive stride `ba`. -/
def chunksLE (ba : Nat) (l : List Nat) : List Nat :=
  (pyRange 0 l.length ba).map (fun i => leBytes ((l.drop i).take ba))

/-- numpy `np.array(flat).reshape((p, r, c))`: succeeds exactly when the
flat length equals `p * r * c` (else `ValueError`, modelled `none`). -/
def reshape3 (p r c : Nat) (flat : List Nat) : Option Volume :=
  if flat.length = p * r * c then
    some ((List.range p).map (fun i =>
      (List.range r).map (fun j =>
        (((flat.drop ((i * r + j) * c)).take c).map (fun v => (v : Int))))))
  else none

/-- `decode_image_data` from dicom_functions.py.  `bits // 8` is Python
floor division (`Int.fdiv`); a non-positive stride or any lookup, type
or reshape failure raises, modelled as `none`.  (A negative stride would
make Python's `range` empty; it cannot reconcile with a nonempty blob
and is subsumed by the `none` branch.) -/
def decode_image_data (parsed : MetaDict) (image_data : List Nat) : Option Volume := do
  let bitsE ← dictGet parsed "00280100"
  let bits ← asInt bitsE.2.2
  let ba := Int.fdiv bits 8
  let rowsE ← dictGet parsed "00280010"
  let rows ← asInt rowsE.2.2
  let colsE ← dictGet parsed "00280011"
  let cols ← asInt colsE.2.2
  let planesE ← dictGet parsed "00280008"
  let planes ← asInt planesE.2.2
  if 0 < ba ∧ 0 ≤ rows ∧ 0 ≤ cols ∧ 0 ≤ planes then
    reshape3 planes.toNat rows.toNat cols.toNat (chunksLE ba.toNat image_data)
  else none

/-- Normalise a Python slice bound against a list length: negative
indices count from the end, everything clamps into `[0, len]`. -/
def pyNorm (len : Nat) (i : Int) : Nat :=
  if i < 0 then (max 0 ((len : Int) + i)).toNat else (min (len : Int) i).toNat

/-- Python / numpy basic slice `l[a:b]` with `Int` bounds (step 1). -/
def pySlice (l : List α) (a b : Int) : List α :=
  (l.take (pyNorm l.length b)).drop (pyNorm l.length a)

/-- `crop` from dicom_functions.py: `array[start:end, start:end, start:end]`
with `start = shape[0]//2 - crop_size//2`, `end = start + crop_size`.
numpy basic slicing clamps exactly like Python list slicing and never
raises for any bounds.  (The function's 3-D `ValueError` guard concerns
the argument's rank, which the `Volume` type already fixes.) -/
def crop (array : Volume) (crop_size : Nat) : Volume :=
  let center : Nat := array.length / 2
  let start : Int := (center : Int) - ((crop_size / 2 : Nat) : Int)
  let stop : Int := start + (crop_size : Int)
  (pySlice array start stop).map (fun plane =>
    (pySlice plane start stop).map (fun row => pySlice row start stop))

/-- Element of a 2D integer grid at `Int` coordinates, 0 outside the
grid: the zero-fill boundary of `convolve2d(..., boundary='fill',
fillvalue=0)`. -/
def getPx (img : List (List Int)) (i j : Int) : Int :=
  if 0 ≤ i ∧ 0 ≤ j then ((img.getD i.toNat []).getD j.toNat 0) else 0

/-- scipy `convolve2d(img, ker, mode='same', boundary='fill',
fillvalue=0)`: the centred `img`-sized part of the full discrete
convolution. -/
def conv2dSame (img ker : List (List Int)) : List (List Int) :=
  let h := img.length
  let w := (img.headD []).length
  let kh := ker.length
  let kw := (ker.headD []).length
  (List.range h).map (fun (i : Nat) =>
    (List.range w).map (fun (j : Nat) =>
      ((List.range kh).map (fun (a : Nat) =>
        ((List.range kw).map (fun (b : Nat) =>
          getPx ker (a : Int) (b : Int) *
            getPx img ((i : Int) + (((kh - 1) / 2 : Nat) : Int) - (a : Int))
              ((j : Int) + (((kw - 1) / 2 : Nat) : Int) - (b : Int)))).sum)).sum))

/-- The default NEMA smoothing kernel named by the spec. -/
def nemaKernel : List (List Int) := [[1, 2, 1], [2, 4, 2], [1, 2, 1]]

/-- `apply_convolution` from dicom_functions.py: `convolve2d` on every
plane, written into a freshly allocated `np.zeros_like(array)` (with an
integer kernel the dtype round-trip is the identity). -/
def apply_convolution (array : Volume) (convolution : List (List Int)) : Volume :=
  array.map (fun plane => conv2dSame plane convolution)

/-- `remove_image_edges` from dicom_functions.py.  The Python loop nest
assigns `array[layer][row][column] = 10000` into the caller's array and
then returns that same array, so after the call the argument's contents
are exactly this function's result: the in-place mutation is part of
the embedding's meaning. -/
def remove_image_edges (array : Volume) : Volume :=
  let radius : Nat := array.length / 2
  array.map (fun layer =>
    layer.enum.map (fun rowp =>
      rowp.2.enum.map (fun colp =>
        if ((radius : Int) - (colp.1 : Int)) ^ 2 +
            ((radius : Int) - (rowp.1 : Int)) ^ 2 > ((radius : Int)) ^ 2
        then 10000 else colp.2)))

example :
    decode_image_data
      [("00280100", ("US", 2, .int 12)), ("00280010", ("US", 2, .int 1)),
       ("00280011", ("US", 2, .int 1)), ("00280008", ("IS", 1, .int 2))]
      [7, 9] = some [[[7]], [[9]]] := by decide
example : crop [[[0]]] 1 = [[[0]]] := by decide
example :
    apply_convolution [[[1, 1, 1], [1, 1, 1], [1, 1, 1]]] nemaKernel =
      [[[9, 12, 9], [12, 16, 12], [9, 12, 9]]] := by decide
example :
    remove_image_edges [[[1, 2], [3, 4]]] = [[[1, 10000], [10000, 10000]]] := by
  decide

/-- One RGBA pixel of the circularly-masked image
(`self.cropped_data` is an H×W×4 uint8 array). -/
structure RGBA where
  r : Nat
  g : Nat
  b : Nat
  a : Nat
deriving DecidableEq, Repr

/-- `UniformityLayer` from uniformity_functions.py.  `crop_to_circle`
renders `bin_data` through PIL into the RGBA array `cropped_data`; that
rendering is outside the embedding, so the masked array is the state the
metric methods read: `none` is Python's initial `None`. -/
structure UniformityLayer where
  circ_rad : Nat
  cropped_data : Option (List (List RGBA))
deriving DecidableEq, Repr

/-- The perceptual grayscale `0.299*R + 0.587*G + 0.114*B`, exactly in ℚ. -/
def grayOf (p : RGBA) : ℚ :=
  (299 * p.r + 587 * p.g + 114 * p.b : ℚ) / 1000

/-- The masked grayscale grid both metrics build: pixels with zero alpha
become NaN (modelled `none`), the rest carry their grayscale value.
(`differential` masks where `alpha > 0` is false, `integral` where
`alpha == 0`; these coincide.) -/
def grayscaleGrid (d : List (List RGBA)) : List (List (Option ℚ)) :=
  d.map (fun row => row.map (fun p => if 0 < p.a then some (grayOf p) else none))

/-- The non-NaN entries of a window or grid row
(`s[~np.isnan(s)]`). -/
def validPix (w : List (Option ℚ)) : List ℚ :=
  w.filterMap id

/-- `np.nanmax` of a nonempty NaN-free array ([] never occurs where used;
its value is irrelevant). -/
def listMax : List ℚ → ℚ
  | [] => 0
  | x :: xs => xs.foldl max x

/-- `np.nanmin` of a nonempty NaN-free array. -/
def listMin : List ℚ → ℚ
  | [] => 0
  | x :: xs => xs.foldl min x

/-- The uniformity formula as the code writes it:
`abs((max - min) / ((max + min) / 2) * 100)`. -/
def codeRatio (mx mn : ℚ) : ℚ :=
  |(mx - mn) / ((mx + mn) / 2) * 100|

/-- One iteration of `_calculate_uniformity`'s loop: skip all-NaN
windows, require at least 2 valid pixels, skip `max + min == 0`, else
fold the ratio into the running maximum. -/
def calcStep (acc : ℚ) (w : List (Option ℚ)) : ℚ :=
  if w.all (fun x => x.isNone) then acc
  else
    if 2 ≤ (validPix w).length then
      if listMax (validPix w) + listMin (validPix w) ≠ 0 then
        max acc (codeRatio (listMax (validPix w)) (listMin (validPix w)))
      else acc
    else acc

/-- `UniformityLayer._calculate_uniformity`. -/
def calculate_uniformity (ws : List (List (Option ℚ))) : ℚ :=
  ws.foldl calcStep 0

/-- The horizontal window list of `differential`:
`grayscale[y, x:x + 5]` for `y in range(h)`, `x in range(w - 4)`. -/
def horizWindows (g : List (List (Option ℚ))) : List (List (Option ℚ)) :=
  (List.range g.length).flatMap (fun y =>
    (List.range ((g.headD []).length - 4)).map (fun x =>
      (((g.getD y []).drop x).take 5)))

/-- The vertical window list of `differential`:
`grayscale[y:y + 5, x]` for `x in range(w)`, `y in range(h - 4)`. -/
def vertWindows (g : List (List (Option ℚ))) : List (List (Option ℚ)) :=
  (List.range (g.headD []).length).flatMap (fun x =>
    (List.range (g.length - 4)).map (fun y =>
      ((g.drop y).take 5).map (fun row => row.getD x none)))

/-- `UniformityLayer.differential`.  The thread pool computes the pure
`_calculate_uniformity` once on each window list; `max(results)` is
order-independent, so the concurrency is semantically the outer `max`. -/
def differential (L : UniformityLayer) : ℚ :=
  match L.cropped_data with
  | none => 0
  | some d =>
    let g := grayscaleGrid d
    max (calculate_uniformity (horizWindows g)) (calculate_uniformity (vertWindows g))

/-- `UniformityLayer.integral`.  The final expression divides by
`(max + min) / 2` with no zero guard; with float arithmetic a zero
divisor yields a non-finite result (NaN here, since the nonnegative
grayscale forces `max = min = 0`), modelled as `none`. -/
def integral (L : UniformityLayer) : Option ℚ :=
  match L.cropped_data with
  | none => some 0
  | some d =>
    let valid := validPix ((grayscaleGrid d).foldr (fun r acc => r ++ acc) [])
    if valid.length = 0 then some 0
    else
      if listMax valid + listMin valid = 0 then none
      else some (codeRatio (listMax valid) (listMin valid))

/-- The claim's differential-uniformity reading, following the spec's
words: every horizontal and vertical 5-pixel window with at least 2
non-excluded pixels contributes `|max − min| / ((max + min) / 2) * 100`,
and the result is the maximum contribution, 0 when no window qualifies. -/
def specRatio (mx mn : ℚ) : ℚ :=
  |mx - mn| / ((mx + mn) / 2) * 100

/-- Spec reading of `differential` on a masked slice (see `specRatio`). -/
def differentialSpec (d : List (List RGBA)) : ℚ :=
  let g := grayscaleGrid d
  let ws := horizWindows g ++ vertWindows g
  (((ws.filter (fun w => 2 ≤ (validPix w).length)).map
    (fun w => specRatio (listMax (validPix w)) (listMin (validPix w)))).foldl max 0)

/-- One fold step of the spec reading: a window with at least 2 valid
pixels contributes its ratio to the running maximum (proof apparatus for
relating `differentialSpec` to the code's loop). -/
def specStep (acc : ℚ) (w : List (Option ℚ)) : ℚ :=
  if 2 ≤ (validPix w).length then
    max acc (specRatio (listMax (validPix w)) (listMin (validPix w)))
  else acc

example :
    differential ⟨5, some [[⟨0, 0, 0, 255⟩]]⟩ = 0 := by decide
example :
    integral ⟨5, some [[⟨0, 0, 0, 255⟩]]⟩ = none := by
  norm_num [integral, grayscaleGrid, grayOf, validPix, listMax, listMin,
    List.filterMap_cons]
example :
    integral ⟨5, some [[⟨10, 10, 10, 255⟩, ⟨20, 20, 20, 255⟩]]⟩ =
      some (200 / 3) := by
  norm_num [integral, grayscaleGrid, grayOf, validPix, listMax, listMin, codeRatio,
    List.filterMap_cons, max_def, min_def]

/-! ## Claim theorems -/

/-- C10: on a `UniformityLayer` whose `cropped_data` is still `None`
(`crop_to_circle` never called), both `differential` and `integral`
return 0 and raise no exception, instead of computing a metric on the
unmasked data. -/
theorem c10_metrics_zero_without_mask (r : Nat) :
    differential ⟨r, none⟩ = 0 ∧ integral ⟨r, none⟩ = some 0 :=
  ⟨rfl, rfl⟩

/-- C3: the code violates the claim for `integral`: on a slice whose
valid pixels are all zero (one opaque black pixel), `max + min = 0` is
not guarded, the ratio divides zero by zero, and the result is the
non-numeric float NaN (modelled `none`) instead of the claimed
skip-to-zero. -/
theorem c3_integral_all_zero_yields_nan :
    integral ⟨5, some [[⟨0, 0, 0, 255⟩]]⟩ = none := by
  norm_num [integral, grayscaleGrid, grayOf, validPix, listMax, listMin,
    List.filterMap_cons]

/-- C7 counterexample: central crop of a `(4,4,4)` volume with crop size
10 silently returns the clamped `(3,3,3)` sub-volume (Python slice
semantics: start `-3` counts from the end), raising nothing — no
`RangeError` exists in the code. -/
theorem c7_cex_oversize_crop_truncates :
    crop
      [List.replicate 4 (List.replicate 4 (0 : Int)),
       List.replicate 4 (List.replicate 4 (1 : Int)),
       List.replicate 4 (List.replicate 4 (2 : Int)),
       List.replicate 4 (List.replicate 4 (3 : Int))] 10 =
      [List.replicate 3 (List.replicate 3 (1 : Int)),
       List.replicate 3 (List.replicate 3 (2 : Int)),
       List.replicate 3 (List.replicate 3 (3 : Int))] := by decide

/-- C7 amended: when the requested crop size exceeds the first-axis
extent, `crop` silently returns a truncated volume with fewer than
`crop_size` planes (numpy basic slicing clamps out-of-range bounds);
it never rejects the call. -/
theorem c7_oversize_crop_is_truncated (vol : Volume) (k : Nat)
    (h : vol.length < k) : (crop vol k).length < k := by
  unfold crop pySlice
  calc (((vol.take (pyNorm vol.length _)).drop (pyNorm vol.length _)).map _).length
      ≤ vol.length := by
        simp only [List.length_map, List.length_drop, List.length_take]
        omega
    _ < k := h

/-- Witness for `c7_oversize_crop_is_truncated` at a concrete volume. -/
theorem c7_oversize_crop_is_truncated_witness :
    ([[[ (7 : Int) ]]] : Volume).length < 10 ∧ (crop [[[ (7 : Int) ]]] 10).length < 10 :=
  ⟨by decide, c7_oversize_crop_is_truncated [[[ (7 : Int) ]]] 10 (by decide)⟩

/-- C9 counterexample: a parsed element whose tag is absent from the tag
dictionary is annotated with the code's literal `"UNKOWN"`, which is not
the claimed label `"UNKNOWN"`. -/
theorem c9_cex_label_is_misspelled :
    annotate (fun _ => none) [("00100010", ("PN", 4, .str "ABCD"))] =
      [("00100010", ⟨"PN", 4, .str "ABCD", "UNKOWN"⟩)] ∧
    ("UNKOWN" : String) ≠ "UNKNOWN" := by decide

/-- C9 amended: every parsed element is annotated with the dictionary's
name for its tag when present, and with the literal `"UNKOWN"` (the
code's spelling) when the tag is absent. -/
theorem c9_annotate_names_elements (elements : String → Option String)
    (d : MetaDict) (k : String) (v : String × Nat × DecodedValue)
    (h : (k, v) ∈ d) :
    (k, (⟨v.1, v.2.1, v.2.2, (elements k).getD "UNKOWN"⟩ : NamedElem)) ∈
      annotate elements d := by
  unfold annotate
  exact List.mem_map.mpr ⟨(k, v), h, rfl⟩

/-- Witness for `c9_annotate_names_elements` at a concrete dictionary. -/
theorem c9_annotate_names_elements_witness :
    ((("00100010", ("PN", 4, DecodedValue.str "ABCD")) :
        String × String × Nat × DecodedValue) ∈
      ([("00100010", ("PN", 4, DecodedValue.str "ABCD"))] : MetaDict)) ∧
    ((("00100010",
      (⟨"PN", 4, DecodedValue.str "ABCD",
        ((fun _ => (none : Option String)) "00100010").getD "UNKOWN"⟩ : NamedElem)) :
        String × NamedElem) ∈
      annotate (fun _ => none) [("00100010", ("PN", 4, DecodedValue.str "ABCD"))]) :=
  ⟨by decide,
    c9_annotate_names_elements (fun _ => none)
      [("00100010", ("PN", 4, DecodedValue.str "ABCD"))]
      "00100010" ("PN", 4, DecodedValue.str "ABCD") (by decide)⟩

/-- Pointwise value of a mapped list at an in-bounds index, via `getD`. -/
theorem getD_map_of_lt {α β : Type} (f : α → β) (l : List α) (i : Nat)
    (h : i < l.length) (d : β) (d2 : α) :
    (l.map f).getD i d = f (l.getD i d2) := by
  simp [List.getD_eq_getElem?_getD, List.getElem?_map, List.getElem?_eq_getElem h]

/-- Pointwise value of a mapped enumeration at an in-bounds index. -/
theorem getD_enum_map_of_lt {α β : Type} (g : Nat × α → β) (l : List α) (i : Nat)
    (h : i < l.length) (d : β) (d2 : α) :
    (l.enum.map g).getD i d = g (i, l.getD i d2) := by
  simp [List.getD_eq_getElem?_getD, List.getElem?_map, List.getElem?_enum,
    List.getElem?_eq_getElem h]

/-- C8 counterexample: `remove_image_edges` writes the sentinel 10000
over the out-of-circle pixels of its argument — in Python these writes
go into the caller's array (the function returns the same object), so
the original volume's contents change and are not preserved. -/
theorem c8_cex_remove_image_edges_mutates :
    remove_image_edges [[[1, 2], [3, 4]]] = [[[1, 10000], [10000, 10000]]] ∧
      ([[[1, 10000], [10000, 10000]]] : Volume) ≠ [[[1, 2], [3, 4]]] := by decide

/-- C8 amended: `apply_convolution` builds its result in a fresh
`np.zeros_like` array and `crop` only slices, but `remove_image_edges`
assigns in place: after the call the caller's volume holds 10000 at
every position outside the circle of radius `len/2` and its original
value elsewhere, so revert-to-original is broken for edge removal. -/
theorem c8_remove_image_edges_overwrites (a : Volume) (l r c : Nat)
    (hl : l < a.length) (hr : r < (a.getD l []).length)
    (hc : c < ((a.getD l []).getD r []).length) :
    (((remove_image_edges a).getD l []).getD r []).getD c 0 =
      if (((a.length / 2 : Nat) : Int) - (c : Int)) ^ 2 +
          (((a.length / 2 : Nat) : Int) - (r : Int)) ^ 2 >
          (((a.length / 2 : Nat) : Int)) ^ 2
      then 10000 else ((a.getD l []).getD r []).getD c 0 := by
  simp only [remove_image_edges]
  rw [getD_map_of_lt _ a l hl [] []]
  rw [getD_enum_map_of_lt _ (a.getD l []) r hr [] []]
  rw [getD_enum_map_of_lt _ ((a.getD l []).getD r []) c hc 0 0]

/-- Witness for `c8_remove_image_edges_overwrites` at a concrete pixel. -/
theorem c8_remove_image_edges_overwrites_witness :
    (0 < ([[[1, 2], [3, 4]]] : Volume).length ∧
      0 < (([[[1, 2], [3, 4]]] : Volume).getD 0 []).length ∧
      1 < ((([[[1, 2], [3, 4]]] : Volume).getD 0 []).getD 0 []).length) ∧
    (((remove_image_edges [[[1, 2], [3, 4]]]).getD 0 []).getD 0 []).getD 1 0 =
      if (((([[[1, 2], [3, 4]]] : Volume).length / 2 : Nat) : Int) - (1 : Int)) ^ 2 +
          (((([[[1, 2], [3, 4]]] : Volume).length / 2 : Nat) : Int) - (0 : Int)) ^ 2 >
          (((([[[1, 2], [3, 4]]] : Volume).length / 2 : Nat) : Int)) ^ 2
      then 10000
      else ((([[[1, 2], [3, 4]]] : Volume).getD 0 []).getD 0 []).getD 1 0 :=
  ⟨⟨by decide, by decide, by decide⟩,
    c8_remove_image_edges_overwrites [[[1, 2], [3, 4]]] 0 0 1
      (by decide) (by decide) (by decide)⟩

/-- C6 counterexample: with bits-allocated 12 (not divisible by 8) the
code floor-divides to a 1-byte stride and happily returns a volume; no
`UnsupportedBitDepthError` exists. -/
theorem c6_cex_bit_depth_not_checked :
    decode_image_data
      [("00280100", ("US", 2, .int 12)), ("00280010", ("US", 2, .int 1)),
       ("00280011", ("US", 2, .int 1)), ("00280008", ("IS", 1, .int 2))]
      [7, 9] = some [[[7]], [[9]]] ∧ ¬((12 : Nat) % 8 = 0) := by decide

/-- C6 amended: bytes-per-sample is the floor `bits // 8` with no
divisibility check: two bits-allocated values with the same floor (such
as 12 and 8) decode every pixel blob identically, and no error is raised
for a non-multiple of 8. -/
theorem c6_bit_depth_floor_div (b1 b2 rows cols planes : Int) (data : List Nat)
    (h : Int.fdiv b1 8 = Int.fdiv b2 8) :
    decode_image_data
      [("00280100", ("US", 2, .int b1)), ("00280010", ("US", 2, .int rows)),
       ("00280011", ("US", 2, .int cols)), ("00280008", ("IS", 1, .int planes))]
      data =
    decode_image_data
      [("00280100", ("US", 2, .int b2)), ("00280010", ("US", 2, .int rows)),
       ("00280011", ("US", 2, .int cols)), ("00280008", ("IS", 1, .int planes))]
      data := by
  have L : ∀ bits : Int,
      decode_image_data
        [("00280100", ("US", 2, .int bits)), ("00280010", ("US", 2, .int rows)),
         ("00280011", ("US", 2, .int cols)), ("00280008", ("IS", 1, .int planes))]
        data =
        if 0 < Int.fdiv bits 8 ∧ 0 ≤ rows ∧ 0 ≤ cols ∧ 0 ≤ planes then
          reshape3 planes.toNat rows.toNat cols.toNat
            (chunksLE (Int.fdiv bits 8).toNat data)
        else none := fun bits => rfl
  rw [L b1, L b2, h]

/-- Witness for `c6_bit_depth_floor_div`: bits 12 and 8 share floor 1. -/
theorem c6_bit_depth_floor_div_witness :
    Int.fdiv 12 8 = Int.fdiv 8 8 ∧
    decode_image_data
      [("00280100", ("US", 2, .int 12)), ("00280010", ("US", 2, .int 1)),
       ("00280011", ("US", 2, .int 1)), ("00280008", ("IS", 1, .int 2))]
      [7, 9] =
    decode_image_data
      [("00280100", ("US", 2, .int 8)), ("00280010", ("US", 2, .int 1)),
       ("00280011", ("US", 2, .int 1)), ("00280008", ("IS", 1, .int 2))]
      [7, 9] :=
  ⟨by decide, c6_bit_depth_floor_div 12 8 1 1 2 [7, 9] (by decide)⟩

/-- C5 counterexample: a stream whose pixel-data element carries VR "US"
has its value run through `decode_value` like any other element, so the
captured image data is the decoded integer 5, not the raw value bytes
`[5, 0]` the claim promises. -/
theorem c5_cex_pixel_value_is_decoded :
    parse_binary (fun _ => none)
      (List.replicate 132 0 ++ [0xe0, 0x7f, 0x10, 0x00, 0x55, 0x53, 2, 0, 5, 0]) =
      some ([], some (.int 5)) ∧
    DecodedValue.int 5 ≠ DecodedValue.bytes [5, 0] := by decide

/-- C5 amended: when the reordered tag of the element at the head of the
stream is the pixel-data tag `"7fe00010"`, the parse loop stores that
element's `decode_value` output (the identity on the raw bytes for the
VRs OB/OW actually used by pixel data) as the image data and returns at
once — independent of any remaining fuel or bytes, and with the
metadata mapping exactly as accumulated, so nothing is inserted for the
pixel tag and no further element is read. -/
theorem c5_pixel_tag_stops_loop (fuel : Nat) (data : List Nat) (acc : MetaDict)
    (e : RawElem) (hp : parseElem data = some e) (ht : e.tag = "7fe00010") :
    parseLoopF fuel data acc = some (acc, some e.value) := by
  by_cases hd : data = []
  · subst hd
    rw [show parseElem ([] : List Nat) = some ⟨"", "", 0, .str "", []⟩ from by decide]
      at hp
    cases hp
    exact absurd ht (by decide)
  · simp [parseLoopF, hd, hp, ht]

/-- Witness for `c5_pixel_tag_stops_loop` on a concrete element. -/
theorem c5_pixel_tag_stops_loop_witness :
    parseElem [0xe0, 0x7f, 0x10, 0x00, 0x55, 0x53, 2, 0, 5, 0] =
      some ⟨"7fe00010", "US", 2, .int 5, []⟩ ∧
    parseLoopF 0 [0xe0, 0x7f, 0x10, 0x00, 0x55, 0x53, 2, 0, 5, 0]
      [("deadbeef", ("UL", 4, DecodedValue.int 1))] =
      some ([("deadbeef", ("UL", 4, DecodedValue.int 1))], some (.int 5)) :=
  ⟨by decide,
    c5_pixel_tag_stops_loop 0 [0xe0, 0x7f, 0x10, 0x00, 0x55, 0x53, 2, 0, 5, 0]
      [("deadbeef", ("UL", 4, DecodedValue.int 1))]
      ⟨"7fe00010", "US", 2, .int 5, []⟩ (by decide) rfl⟩

/-- Unfolding of `decodeValueAux` on the empty input: any fuel yields
the single attempt's result, `none` standing for the unproductive
recursion of the Python code. -/
theorem decodeValueAux_nil (n : Nat) (vr : String) :
    decodeValueAux n vr [] =
      match decodeOnce vr [] with
      | some v => some v
      | none => none := by
  cases hdo : decodeOnce vr [] <;> simp [decodeValueAux, hdo]

/-- Unfolding of `decodeValueAux` on a nonempty input with positive
fuel: retry with the last two bytes stripped. -/
theorem decodeValueAux_cons (f : Nat) (vr : String) (x : Nat) (xs : List Nat) :
    decodeValueAux (f + 1) vr (x :: xs) =
      match decodeOnce vr (x :: xs) with
      | some v => some v
      | none => decodeValueAux f vr (pyDropLast2 (x :: xs)) := by
  cases hdo : decodeOnce vr (x :: xs) <;> simp [decodeValueAux, hdo]

/-- Dropping the final two bytes of a nonempty list shortens it. -/
theorem pyDropLast2_length_le (x : Nat) (xs : List Nat) :
    (pyDropLast2 (x :: xs)).length ≤ xs.length := by
  simp only [pyDropLast2, List.length_take, List.length_cons]
  omega

/-- Fuel does not matter for `decodeValueAux` once it is at least the
input length: the retry chain shortens a nonempty input by at least one
byte per step and stops by itself on the empty input. -/
theorem decodeValueAux_fuel_irrelevant :
    ∀ (k n m : Nat) (vr : String) (value : List Nat),
      value.length ≤ k → value.length ≤ n → value.length ≤ m →
      decodeValueAux n vr value = decodeValueAux m vr value := by
  intro k
  induction k with
  | zero =>
    intro n m vr value hk _ _
    have hv : value = [] := List.length_eq_zero.mp (Nat.le_zero.mp hk)
    subst hv
    rw [decodeValueAux_nil, decodeValueAux_nil]
  | succ k ih =>
    intro n m vr value hk hn hm
    match value with
    | [] => rw [decodeValueAux_nil, decodeValueAux_nil]
    | x :: xs =>
      simp only [List.length_cons] at hk hn hm
      obtain ⟨n', rfl⟩ : ∃ n', n = n' + 1 := ⟨n - 1, by omega⟩
      obtain ⟨m', rfl⟩ : ∃ m', m = m' + 1 := ⟨m - 1, by omega⟩
      rw [decodeValueAux_cons, decodeValueAux_cons]
      cases hdo : decodeOnce vr (x :: xs) with
      | some v => rfl
      | none =>
        have hshort := pyDropLast2_length_le x xs
        exact ih n' m' vr (pyDropLast2 (x :: xs))
          (by omega) (by omega) (by omega)

/-- C1 amended: `decode_value` returns the first successful single
decoding attempt obtained by repeatedly stripping the final 2 bytes; no
`MalformedValueError` exists: when the input is exhausted the attempt on
the empty input decides the outcome — for the text-like, AT, UL, US and
pass-through VRs it succeeds on the empty value, and for the remaining
numeric VRs the Python recursion makes no further progress and never
returns (modelled `none`). -/
theorem c1_decode_value_retry_characterisation (vr : String) (value : List Nat) :
    decode_value vr value =
      match decodeOnce vr value with
      | some v => some v
      | none =>
        match value with
        | [] => none
        | _ :: _ => decode_value vr (pyDropLast2 value) := by
  unfold decode_value
  match value with
  | [] => rw [decodeValueAux_nil]
  | x :: xs =>
    rw [show (x :: xs).length = xs.length + 1 from rfl, decodeValueAux_cons]
    cases hdo : decodeOnce vr (x :: xs) with
    | some v => rfl
    | none =>
      simp only []
      have hshort := pyDropLast2_length_le x xs
      exact decodeValueAux_fuel_irrelevant xs.length xs.length
        (pyDropLast2 (x :: xs)).length vr (pyDropLast2 (x :: xs))
        hshort hshort (le_refl _)

/-- C1 counterexample: for VR "CS" on the single non-ASCII byte 255 the
first attempt fails, stripping exhausts the input, and `decode_value`
then succeeds with the empty string instead of failing with the claimed
`MalformedValueError`. -/
theorem c1_cex_exhausted_input_succeeds_empty :
    decodeOnce "CS" [255] = none ∧ decode_value "CS" [255] = some (.str "") := by
  decide

/-- Value of a mapped range at an in-bounds index. -/
theorem getD_map_range {β : Type} (f : Nat → β) (n i : Nat) (h : i < n) (d : β) :
    ((List.range n).map f).getD i d = f i := by
  simp [List.getD_eq_getElem?_getD, List.getElem?_map, List.getElem?_range h]

/-- Head of a nonempty replicated list. -/
theorem headD_replicate {α : Type} (n : Nat) (x : α) (d : α) (hn : 0 < n) :
    (List.replicate n x).headD d = x := by
  cases n with
  | zero => omega
  | succ m => simp [List.replicate_succ]

/-- `getPx` on a uniform grid gives the uniform value inside bounds. -/
theorem getPx_replicate (hn w : Nat) (u : Int) (p q : Int)
    (h1 : 0 ≤ p) (h2 : p < (hn : Int)) (h3 : 0 ≤ q) (h4 : q < (w : Int)) :
    getPx (List.replicate hn (List.replicate w u)) p q = u := by
  unfold getPx
  rw [if_pos ⟨h1, h3⟩]
  have hp : p.toNat < hn := by omega
  have hq : q.toNat < w := by omega
  simp [List.getD_eq_getElem?_getD, List.getElem?_replicate, hp, hq]

/-- C4 counterexample: with the default kernel (sum 16) a uniform slice
of ones maps to 16 at the centre (and 9 or 12 at the zero-filled
borders): the code does not normalise by the kernel sum, so the uniform
value is not preserved. -/
theorem c4_cex_convolution_not_normalised :
    apply_convolution [[[1, 1, 1], [1, 1, 1], [1, 1, 1]]] nemaKernel =
      [[[9, 12, 9], [12, 16, 12], [9, 12, 9]]] ∧ (16 : Int) ≠ 1 := by decide

/-- C4 amended: the convolution applies the caller-supplied kernel
without any normalisation, per 2D slice with zero fill and same-size
output; with the default kernel every pixel of a uniform-value slice
away from the zero-filled borders becomes 16 times the uniform value. -/
theorem c4_convolution_unnormalised_interior (h w : Nat) (u : Int) (i j : Nat)
    (hi1 : 1 ≤ i) (hi2 : i + 1 < h) (hj1 : 1 ≤ j) (hj2 : j + 1 < w) :
    (((apply_convolution [List.replicate h (List.replicate w u)] nemaKernel).getD
        0 []).getD i []).getD j 0 = 16 * u := by
  have hrep : ∀ p q : Int, 0 ≤ p → p < (h : Int) → 0 ≤ q → q < (w : Int) →
      getPx (List.replicate h (List.replicate w u)) p q = u := fun p q a b c d =>
    getPx_replicate h w u p q a b c d
  simp only [apply_convolution, List.map_cons, List.map_nil, List.getD_cons_zero,
    conv2dSame, List.length_replicate]
  rw [headD_replicate h (List.replicate w u) [] (by omega), List.length_replicate]
  rw [getD_map_range _ h i (by omega) []]
  rw [getD_map_range _ w j (by omega) 0]
  rw [show nemaKernel.length = 3 from rfl, show (nemaKernel.headD []).length = 3 from rfl]
  rw [show List.range 3 = [0, 1, 2] from by decide]
  simp only [List.map_cons, List.map_nil, List.sum_cons, List.sum_nil,
    Nat.cast_zero, Nat.cast_one, Nat.cast_ofNat, sub_zero]
  rw [show ((3 - 1) / 2 : Nat) = 1 from rfl]
  rw [show getPx nemaKernel 0 0 = 1 from by decide,
    show getPx nemaKernel 0 1 = 2 from by decide,
    show getPx nemaKernel 0 2 = 1 from by decide,
    show getPx nemaKernel 1 0 = 2 from by decide,
    show getPx nemaKernel 1 1 = 4 from by decide,
    show getPx nemaKernel 1 2 = 2 from by decide,
    show getPx nemaKernel 2 0 = 1 from by decide,
    show getPx nemaKernel 2 1 = 2 from by decide,
    show getPx nemaKernel 2 2 = 1 from by decide]
  push_cast
  rw [hrep ((i : Int) + 1) ((j : Int) + 1) (by omega) (by omega) (by omega) (by omega),
    hrep ((i : Int) + 1) ((j : Int) + 1 - 1) (by omega) (by omega) (by omega) (by omega),
    hrep ((i : Int) + 1) ((j : Int) + 1 - 2) (by omega) (by omega) (by omega) (by omega),
    hrep ((i : Int) + 1 - 1) ((j : Int) + 1) (by omega) (by omega) (by omega) (by omega),
    hrep ((i : Int) + 1 - 1) ((j : Int) + 1 - 1) (by omega) (by omega) (by omega) (by omega),
    hrep ((i : Int) + 1 - 1) ((j : Int) + 1 - 2) (by omega) (by omega) (by omega) (by omega),
    hrep ((i : Int) + 1 - 2) ((j : Int) + 1) (by omega) (by omega) (by omega) (by omega),
    hrep ((i : Int) + 1 - 2) ((j : Int) + 1 - 1) (by omega) (by omega) (by omega) (by omega),
    hrep ((i : Int) + 1 - 2) ((j : Int) + 1 - 2) (by omega) (by omega) (by omega) (by omega)]
  ring

/-- Witness for `c4_convolution_unnormalised_interior`. -/
theorem c4_convolution_unnormalised_interior_witness :
    (1 ≤ 1 ∧ 1 + 1 < 3 ∧ 1 ≤ 1 ∧ 1 + 1 < 3) ∧
    (((apply_convolution [List.replicate 3 (List.replicate 3 (5 : Int))]
        nemaKernel).getD 0 []).getD 1 []).getD 1 0 = 16 * 5 :=
  ⟨⟨by decide, by decide, by decide, by decide⟩,
    c4_convolution_unnormalised_interior 3 3 5 1 1
      (by decide) (by decide) (by decide) (by decide)⟩

/-- Folding `max` only grows the accumulator. -/
theorem le_foldl_max (xs : List ℚ) : ∀ a b : ℚ, a ≤ b → a ≤ xs.foldl max b := by
  induction xs with
  | nil => intro a b h; simpa using h
  | cons x xs ih =>
    intro a b h
    exact ih a (max b x) (le_trans h (le_max_left b x))

/-- Folding `min` only shrinks the accumulator. -/
theorem foldl_min_le (xs : List ℚ) : ∀ a b : ℚ, b ≤ a → xs.foldl min b ≤ a := by
  induction xs with
  | nil => intro a b h; simpa using h
  | cons x xs ih =>
    intro a b h
    exact ih a (min b x) (le_trans (min_le_left b x) h)

/-- The running minimum of a nonempty list is at most its running
maximum. -/
theorem listMin_le_listMax_of_ne_nil (v : List ℚ) (hne : v ≠ []) :
    listMin v ≤ listMax v := by
  match v with
  | [] => exact absurd rfl hne
  | x :: xs =>
    show xs.foldl min x ≤ xs.foldl max x
    exact le_trans (foldl_min_le xs x x (le_refl x)) (le_foldl_max xs x x (le_refl x))

/-- A fold of `min` over nonnegative values from a nonnegative seed is
nonnegative. -/
theorem foldl_min_nonneg (xs : List ℚ) : ∀ b : ℚ, 0 ≤ b → (∀ y ∈ xs, 0 ≤ y) →
    0 ≤ xs.foldl min b := by
  induction xs with
  | nil => intro b hb _; simpa using hb
  | cons x xs ih =>
    intro b hb hmem
    exact ih (min b x) (le_min hb (hmem x (List.mem_cons_self x xs)))
      (fun y hy => hmem y (List.mem_cons_of_mem x hy))

/-- The minimum of a nonempty list of nonnegative values is nonnegative. -/
theorem listMin_nonneg_of_ne_nil (v : List ℚ) (hne : v ≠ [])
    (h : ∀ y ∈ v, 0 ≤ y) : 0 ≤ listMin v := by
  match v with
  | [] => exact absurd rfl hne
  | x :: xs =>
    show 0 ≤ xs.foldl min x
    exact foldl_min_nonneg xs x (h x (List.mem_cons_self x xs))
      (fun y hy => h y (List.mem_cons_of_mem x hy))

/-- The spec's ratio is 0 at a zero extrema sum (division by zero in ℚ). -/
theorem specRatio_of_sum_eq_zero (mx mn : ℚ) (h : mx + mn = 0) :
    specRatio mx mn = 0 := by
  unfold specRatio
  rw [h]
  norm_num

/-- For nonnegative ordered extrema the code's whole-expression absolute
value agrees with the claim's numerator-only absolute value. -/
theorem codeRatio_eq_specRatio (mx mn : ℚ) (h0 : 0 ≤ mn) (hle : mn ≤ mx) :
    codeRatio mx mn = specRatio mx mn := by
  by_cases hz : mx + mn = 0
  · unfold codeRatio specRatio
    rw [hz]
    norm_num
  · unfold codeRatio specRatio
    have h1 : (0 : ℚ) ≤ (mx - mn) / ((mx + mn) / 2) * 100 := by
      apply mul_nonneg
      · apply div_nonneg <;> linarith
      · norm_num
    rw [abs_of_nonneg h1, abs_of_nonneg (sub_nonneg.mpr hle)]

/-- An all-NaN window has no valid pixels. -/
theorem validPix_eq_nil_of_all_isNone (w : List (Option ℚ))
    (h : w.all (fun x => x.isNone) = true) : validPix w = [] := by
  unfold validPix
  exact List.filterMap_eq_nil_iff.mpr
    (fun a ha => Option.isNone_iff_eq_none.mp (List.all_eq_true.mp h a ha))

/-- The code's fold step never decreases the running maximum. -/
theorem le_calcStep (acc : ℚ) (w : List (Option ℚ)) : acc ≤ calcStep acc w := by
  unfold calcStep
  split
  · exact le_refl acc
  · split
    · split
      · exact le_max_left acc _
      · exact le_refl acc
    · exact le_refl acc

/-- The spec's fold step never decreases the running maximum. -/
theorem le_specStep (acc : ℚ) (w : List (Option ℚ)) : acc ≤ specStep acc w := by
  unfold specStep
  split
  · exact le_max_left acc _
  · exact le_refl acc

/-- On a window of nonnegative valid pixels the code's step (which skips
all-NaN windows and zero extrema sums) equals the spec's step. -/
theorem calcStep_eq_specStep (acc : ℚ) (w : List (Option ℚ)) (hacc : 0 ≤ acc)
    (hw : ∀ q ∈ validPix w, 0 ≤ q) : calcStep acc w = specStep acc w := by
  unfold calcStep specStep
  by_cases hall : w.all (fun x => x.isNone) = true
  · rw [if_pos hall, validPix_eq_nil_of_all_isNone w hall]
    norm_num
  · rw [if_neg hall]
    by_cases hlen : 2 ≤ (validPix w).length
    · rw [if_pos hlen, if_pos hlen]
      have hne : validPix w ≠ [] := by
        intro h0
        rw [h0] at hlen
        simp at hlen
      have hmn0 := listMin_nonneg_of_ne_nil (validPix w) hne hw
      have hmnmx := listMin_le_listMax_of_ne_nil (validPix w) hne
      by_cases hz : listMax (validPix w) + listMin (validPix w) ≠ 0
      · rw [if_pos hz, codeRatio_eq_specRatio _ _ hmn0 hmnmx]
      · rw [if_neg hz]
        push_neg at hz
        rw [specRatio_of_sum_eq_zero _ _ hz, max_eq_left hacc]
    · rw [if_neg hlen, if_neg hlen]

/-- The loop of `_calculate_uniformity` computes the spec's fold when
every window's valid pixels are nonnegative. -/
theorem foldl_calcStep_eq_specStep (ws : List (List (Option ℚ))) :
    ∀ acc : ℚ, 0 ≤ acc → (∀ w ∈ ws, ∀ q ∈ validPix w, 0 ≤ q) →
      ws.foldl calcStep acc = ws.foldl specStep acc := by
  induction ws with
  | nil => intro acc _ _; rfl
  | cons w ws ih =>
    intro acc hacc hmem
    rw [List.foldl_cons, List.foldl_cons,
      calcStep_eq_specStep acc w hacc (hmem w (List.mem_cons_self w ws))]
    exact ih (specStep acc w) (le_trans hacc (le_specStep acc w))
      (fun w2 hw2 => hmem w2 (List.mem_cons_of_mem w hw2))

/-- The spec fold only grows its accumulator. -/
theorem le_foldl_specStep (ws : List (List (Option ℚ))) :
    ∀ acc : ℚ, acc ≤ ws.foldl specStep acc := by
  induction ws with
  | nil => intro acc; exact le_refl acc
  | cons w ws ih =>
    intro acc
    exact le_trans (le_specStep acc w) (ih (specStep acc w))

/-- A `max` seed distributes out of the spec fold. -/
theorem foldl_specStep_max (ws : List (List (Option ℚ))) :
    ∀ x y : ℚ, ws.foldl specStep (max x y) = max x (ws.foldl specStep y) := by
  induction ws with
  | nil => intro x y; rfl
  | cons w ws ih =>
    intro x y
    rw [List.foldl_cons, List.foldl_cons]
    have hstep : specStep (max x y) w = max x (specStep y w) := by
      unfold specStep
      split
      · rw [max_assoc]
      · rfl
    rw [hstep, ih x (specStep y w)]

/-- The spec fold over concatenated window lists is the maximum of the
folds over the parts. -/
theorem foldl_specStep_append (a b : List (List (Option ℚ))) :
    (a ++ b).foldl specStep 0 = max (a.foldl specStep 0) (b.foldl specStep 0) := by
  rw [List.foldl_append]
  have h0 : (0 : ℚ) ≤ a.foldl specStep 0 := le_foldl_specStep a 0
  conv_lhs =>
    rw [show List.foldl specStep 0 a = max (List.foldl specStep 0 a) 0 from
      (max_eq_left h0).symm]
  rw [foldl_specStep_max b (List.foldl specStep 0 a) 0]

/-- The spec fold is the fold of `max` over the qualifying windows'
ratios, exactly as `differentialSpec` writes it. -/
theorem foldl_specStep_eq_filter_map (ws : List (List (Option ℚ))) :
    ∀ acc : ℚ,
      ws.foldl specStep acc =
        ((ws.filter (fun w => 2 ≤ (validPix w).length)).map
          (fun w => specRatio (listMax (validPix w)) (listMin (validPix w)))).foldl
          max acc := by
  induction ws with
  | nil => intro acc; rfl
  | cons w ws ih =>
    intro acc
    rw [List.foldl_cons, List.filter_cons]
    by_cases hc : 2 ≤ (validPix w).length
    · rw [if_pos (by simpa using hc), List.map_cons, List.foldl_cons]
      have hstep : specStep acc w =
          max acc (specRatio (listMax (validPix w)) (listMin (validPix w))) := by
        unfold specStep
        rw [if_pos hc]
      rw [hstep]
      exact ih (max acc (specRatio (listMax (validPix w)) (listMin (validPix w))))
    · rw [if_neg (by simpa using hc)]
      have hstep : specStep acc w = acc := by
        unfold specStep
        rw [if_neg hc]
      rw [hstep]
      exact ih acc

/-- The grayscale of any RGBA pixel is nonnegative. -/
theorem grayOf_nonneg (p : RGBA) : 0 ≤ grayOf p := by
  unfold grayOf
  positivity

/-- Every valid (non-NaN) entry of the masked grayscale grid is
nonnegative. -/
theorem grid_entry_nonneg (d : List (List RGBA)) (row : List (Option ℚ))
    (hrow : row ∈ grayscaleGrid d) (q : ℚ) (hq : some q ∈ row) : 0 ≤ q := by
  unfold grayscaleGrid at hrow
  obtain ⟨r0, _, rfl⟩ := List.mem_map.mp hrow
  obtain ⟨p, _, hpq⟩ := List.mem_map.mp hq
  by_cases ha : 0 < p.a
  · rw [if_pos ha] at hpq
    rw [← Option.some.inj hpq]
    exact grayOf_nonneg p
  · rw [if_neg ha] at hpq
    cases hpq

/-- A row read with `getD` is a row of the grid or the empty default. -/
theorem getD_mem_or_eq_nil (g : List (List (Option ℚ))) (y : Nat) :
    g.getD y [] ∈ g ∨ g.getD y [] = [] := by
  by_cases hy : y < g.length
  · left
    rw [List.getD_eq_getElem?_getD, List.getElem?_eq_getElem hy, Option.getD_some]
    exact List.getElem_mem hy
  · right
    rw [List.getD_eq_getElem?_getD, List.getElem?_eq_none (by omega)]
    rfl

/-- Valid pixels of horizontal windows are nonnegative. -/
theorem horiz_window_pix_nonneg (d : List (List RGBA)) (w : List (Option ℚ))
    (hw : w ∈ horizWindows (grayscaleGrid d)) (q : ℚ) (hq : q ∈ validPix w) :
    0 ≤ q := by
  obtain ⟨a, ha, haq⟩ := List.mem_filterMap.mp hq
  have haq2 : a = some q := haq
  subst haq2
  unfold horizWindows at hw
  obtain ⟨y, _, hwy⟩ := List.mem_flatMap.mp hw
  obtain ⟨x, _, rfl⟩ := List.mem_map.mp hwy
  have hrow : some q ∈ (grayscaleGrid d).getD y [] :=
    List.mem_of_mem_drop (List.mem_of_mem_take ha)
  cases getD_mem_or_eq_nil (grayscaleGrid d) y with
  | inl h => exact grid_entry_nonneg d _ h q hrow
  | inr h =>
    rw [h] at hrow
    exact absurd hrow (List.not_mem_nil _)

/-- Valid pixels of vertical windows are nonnegative. -/
theorem vert_window_pix_nonneg (d : List (List RGBA)) (w : List (Option ℚ))
    (hw : w ∈ vertWindows (grayscaleGrid d)) (q : ℚ) (hq : q ∈ validPix w) :
    0 ≤ q := by
  obtain ⟨a, ha, haq⟩ := List.mem_filterMap.mp hq
  have haq2 : a = some q := haq
  subst haq2
  unfold vertWindows at hw
  obtain ⟨x, _, hwx⟩ := List.mem_flatMap.mp hw
  obtain ⟨y, _, rfl⟩ := List.mem_map.mp hwx
  obtain ⟨row, hrowmem, hrowq⟩ := List.mem_map.mp ha
  have hrow : row ∈ grayscaleGrid d :=
    List.mem_of_mem_drop (List.mem_of_mem_take hrowmem)
  rw [List.getD_eq_getElem?_getD] at hrowq
  match hx : row[x]? with
  | none =>
    rw [hx] at hrowq
    cases hrowq
  | some ov =>
    rw [hx, Option.getD_some] at hrowq
    subst hrowq
    obtain ⟨hlt, helem⟩ := List.getElem?_eq_some.mp hx
    have hmem : some q ∈ row := helem ▸ List.getElem_mem hlt
    exact grid_entry_nonneg d row hrow q hmem

/-- C2: on a slice with its circular mask applied, `differential` equals
the spec's description: the maximum of the extrema ratio over every
horizontal and vertical 5-pixel window with at least 2 valid pixels,
entirely-excluded windows skipped, 0 when no window qualifies (the
code's extra `max + min == 0` skip coincides with the ℚ reading of the
formula because masked grayscale values are nonnegative). -/
theorem c2_differential_matches_spec (L : UniformityLayer) (d : List (List RGBA))
    (h : L.cropped_data = some d) :
    differential L = differentialSpec d := by
  have hh : ∀ w ∈ horizWindows (grayscaleGrid d), ∀ q ∈ validPix w, 0 ≤ q :=
    fun w hw q hq => horiz_window_pix_nonneg d w hw q hq
  have hv : ∀ w ∈ vertWindows (grayscaleGrid d), ∀ q ∈ validPix w, 0 ≤ q :=
    fun w hw q hq => vert_window_pix_nonneg d w hw q hq
  simp only [differential, h]
  unfold calculate_uniformity
  rw [foldl_calcStep_eq_specStep (horizWindows (grayscaleGrid d)) 0
      (le_refl 0) hh,
    foldl_calcStep_eq_specStep (vertWindows (grayscaleGrid d)) 0
      (le_refl 0) hv,
    ← foldl_specStep_append, foldl_specStep_eq_filter_map]
  rfl

/-- Witness for `c2_differential_matches_spec` on a concrete layer. -/
theorem c2_differential_matches_spec_witness :
    (⟨5, some [[⟨1, 2, 3, 255⟩]]⟩ : UniformityLayer).cropped_data =
      some [[⟨1, 2, 3, 255⟩]] ∧
    differential ⟨5, some [[⟨1, 2, 3, 255⟩]]⟩ = differentialSpec [[⟨1, 2, 3, 255⟩]] :=
  ⟨rfl,
    c2_differential_matches_spec ⟨5, some [[⟨1, 2, 3, 255⟩]]⟩ [[⟨1, 2, 3, 255⟩]] rfl⟩
